import Mathlib

/-
Shallow embedding of the cache-consistent favorites orchestration service
(package internal/core/service together with the domain model in
internal/core/domain/favorites and the redis cache adapter).

Modelling conventions:
- Go errors are modelled as their message strings; fmt.Errorf wrapping with a
  colon-space separator is modelled by string concatenation.
- Serialized asset bytes are modelled by the Asset value whose json.Marshal
  produced them (marshal is injective on the three value variants), so the
  cache blob type is Asset and the generic decode dispatches on the
  discriminator field exactly like Service.unmarshal does.
- Each collaborator port (store, cache, enricher) is an oracle recorded in an
  Env structure; every service operation returns its Go result paired with the
  ordered trace of port calls it performed (an Ev list).
- Results that the Go code consults only to log them are represented by Env
  fields that the model likewise ignores, so theorems quantifying over Env
  cover every possible failure of those calls.
-/

namespace Favorites

/-- Discriminator field of BaseAsset (a Go string type); the catchall
constructor represents any unrecognized discriminator string. -/
inductive AssetType where
  | chart
  | insight
  | audience
  | other (s : String)
deriving DecidableEq, Repr

/-- Rendering of the discriminator as the Go string constant. -/
def AssetType.name : AssetType → String
  | .chart => "chart"
  | .insight => "insight"
  | .audience => "audience"
  | .other s => s

/-- Common fields of all assets (domain/favorites BaseAsset). -/
structure BaseAsset where
  id : String
  userID : String
  type : AssetType
  name : String
  description : String
deriving DecidableEq, Repr

/-- Message of the sentinel error ErrValidation. -/
def errValidation : String := "validation failed"

/-- BaseAsset.ValidateCommon: checks id, name, then the discriminator, in that
order, producing the exact Go error messages. -/
def BaseAsset.validateCommon (b : BaseAsset) (expected : AssetType) : Option String :=
  if b.id = "" then some (errValidation ++ ": id is required")
  else if b.name = "" then some (errValidation ++ ": name is required")
  else if b.type ≠ expected then
    some (errValidation ++ ": invalid asset type: expected " ++ expected.name
      ++ ", got " ++ b.type.name)
  else none

/-- Chart variant (domain/favorites Chart). -/
structure Chart where
  base : BaseAsset
  xAxis : String
  yAxis : String
deriving DecidableEq, Repr

/-- Insight variant (domain/favorites Insight). -/
structure Insight where
  base : BaseAsset
  content : String
deriving DecidableEq, Repr

/-- Targeting rules of an Audience. Go int fields are modelled as Int. -/
structure AudienceRules where
  gender : String
  country : String
  ageMin : Int
  ageMax : Int
deriving DecidableEq, Repr

/-- Audience variant (domain/favorites Audience). -/
structure Audience where
  base : BaseAsset
  rules : AudienceRules
deriving DecidableEq, Repr

/-- The sealed Asset interface: exactly the three concrete value variants. -/
inductive Asset where
  | chart (c : Chart)
  | insight (i : Insight)
  | audience (a : Audience)
deriving DecidableEq, Repr

/-- Embedded BaseAsset of any variant. -/
def Asset.base : Asset → BaseAsset
  | .chart c => c.base
  | .insight i => i.base
  | .audience a => a.base

/-- Asset.GetID. -/
def Asset.getID (a : Asset) : String := a.base.id

/-- Asset.GetUserID. -/
def Asset.getUserID (a : Asset) : String := a.base.userID

/-- Chart.Validate. -/
def Chart.validate (c : Chart) : Option String :=
  match c.base.validateCommon .chart with
  | some e => some e
  | none =>
    if c.xAxis = "" ∧ c.yAxis = "" then
      some (errValidation ++ ": chart requires at least one axis to be defined")
    else none

/-- Insight.Validate. -/
def Insight.validate (i : Insight) : Option String :=
  match i.base.validateCommon .insight with
  | some e => some e
  | none =>
    if i.content = "" then
      some (errValidation ++ ": content is required for Insight")
    else none

/-- Audience.Validate. -/
def Audience.validate (a : Audience) : Option String :=
  match a.base.validateCommon .audience with
  | some e => some e
  | none =>
    if a.rules.country = "" then
      some (errValidation ++ ": country rule is required for Audience")
    else if a.rules.ageMin < 0 ∨ a.rules.ageMax < 0 then
      some (errValidation ++ ": age limits cannot be negative")
    else if a.rules.ageMax > 0 ∧ a.rules.ageMin > a.rules.ageMax then
      some (errValidation ++ ": age_min cannot be greater than age_max")
    else none

/-- Asset.Validate dispatch over the sealed variants. -/
def Asset.validate : Asset → Option String
  | .chart c => c.validate
  | .insight i => i.validate
  | .audience a => a.validate

/-- One observable call to a collaborator port, in the order the service
issues them. -/
inductive Ev where
  | storeSave (a : Asset)
  | storeFindByID (id : String)
  | storeFindAll (limit offset : Int)
  | storeDelete (id : String)
  | storeUpdateDescription (id description : String)
  | enrich (a : Asset)
  | cacheGetBatch (ids : List String)
  | cacheGetIdsFromSet (start stop : Int)
  | cacheAddToSet (id : String) (score : Int)
  | cacheSetData (id : String) (data : Asset)
  | cacheRemove (id : String)
deriving DecidableEq, Repr

/-- Oracle for the three consumed ports plus the clock. Fields whose results
the Go code only logs (enrich, cacheAdd, cacheSetData) are present so that
theorems quantified over Env cover every failure of those calls; the service
model ignores them exactly as the Go code ignores the corresponding errors. -/
structure Env where
  now : Int
  storeSave : Asset → Option String
  storeFind : String → Except String Asset
  storeDelete : String → Option String
  storeUpdate : String → String → Except String Asset
  storeFindAll : Int → Int → Except String (List (Except String Asset))
  enrich : Asset → Option String
  getBatch : List String → Except String (List (String × Asset))
  getIds : Int → Int → Except String (List String)
  cacheAdd : String → Int → Option String
  cacheSetData : String → Asset → Option String
  cacheRemove : String → Option String

/-- Go map lookup on a GetBatch result. -/
def lookupData : List (String × Asset) → String → Option Asset
  | [], _ => none
  | (k, v) :: rest, id => if k = id then some v else lookupData rest id

/-- Decode of arbitrary serialized bytes as a Chart: base fields survive, the
axis fields are taken from the json when present (same variant) and are the
zero value otherwise, mirroring encoding/json on absent keys. -/
def decodeAsChart (d : Asset) : Chart :=
  { base := d.base
    xAxis := match d with | .chart c => c.xAxis | _ => ""
    yAxis := match d with | .chart c => c.yAxis | _ => "" }

/-- Decode of arbitrary serialized bytes as an Insight. -/
def decodeAsInsight (d : Asset) : Insight :=
  { base := d.base
    content := match d with | .insight i => i.content | _ => "" }

/-- Decode of arbitrary serialized bytes as an Audience. -/
def decodeAsAudience (d : Asset) : Audience :=
  { base := d.base
    rules := match d with
      | .audience a => a.rules
      | _ => { gender := "", country := "", ageMin := 0, ageMax := 0 } }

/-- Service.unmarshal: decode the discriminator first, then dispatch to the
matching concrete variant; an unrecognized discriminator is a fatal error. -/
def unmarshalData (d : Asset) : Except String Asset :=
  match d.base.type with
  | .chart => .ok (.chart (decodeAsChart d))
  | .insight => .ok (.insight (decodeAsInsight d))
  | .audience => .ok (.audience (decodeAsAudience d))
  | .other s => .error ("unknown type: " ++ s)

/-- Decode of the zero-value byte slice a Go map yields for an absent key;
json.Unmarshal(nil, ...) fails with this message. -/
def unmarshalOptData : Option Asset → Except String Asset
  | none => .error "unexpected end of JSON input"
  | some d => unmarshalData d

namespace Service

/-- Service.updateCache: marshal (total on the three value variants), then
AddToSet with the current time as score, then Set; both cache errors are only
logged, so only the calls are observable. -/
def updateCache (env : Env) (a : Asset) : List Ev :=
  [Ev.cacheAddToSet a.getID env.now, Ev.cacheSetData a.getID a]

/-- Service.enrichAndSaveCache: enrich (failure logged, and the concrete
variants are Go value types, so the enricher cannot mutate the callers copy),
then update the cache; the returned error is always nil in the source, so the
model returns the asset and the trace only. -/
def enrichAndSaveCache (env : Env) (a : Asset) : Asset × List Ev :=
  (a, Ev.enrich a :: updateCache env a)

/-- Service.Save: validate, persist, then best-effort enrich plus
write-through; the two wrapping fmt.Errorf calls are modelled as string
concatenation with the wrapped message. -/
def Save (env : Env) (a : Asset) : Option String × List Ev :=
  match a.validate with
  | some e => (some ("validation failed: " ++ e), [])
  | none =>
    match env.storeSave a with
    | some e => (some ("failed to save to db: " ++ e), [Ev.storeSave a])
    | none =>
      let es := enrichAndSaveCache env a
      (none, Ev.storeSave a :: es.2)

/-- Miss branch of Service.FindByID: read from the store, propagate its error
unchanged, otherwise enrich and write through before returning. The leading
GetBatch event is added by the caller. -/
def findByIDMiss (env : Env) (id : String) : Except String Asset × List Ev :=
  match env.storeFind id with
  | .error e => (.error e, [Ev.storeFindByID id])
  | .ok a =>
    let es := enrichAndSaveCache env a
    (.ok es.1, Ev.storeFindByID id :: es.2)

/-- Service.FindByID: GetBatch with the singleton id; a nil error together
with a non-empty map is a hit served from the cached bytes, anything else
falls back to the store with read-repair. -/
def FindByID (env : Env) (id : String) : Except String Asset × List Ev :=
  match env.getBatch [id] with
  | .ok m =>
    if 0 < m.length then
      (unmarshalOptData (lookupData m id), [Ev.cacheGetBatch [id]])
    else
      let r := findByIDMiss env id
      (r.1, Ev.cacheGetBatch [id] :: r.2)
  | .error _ =>
    let r := findByIDMiss env id
    (r.1, Ev.cacheGetBatch [id] :: r.2)

/-- Inner per-id loop of Service.chunkedCacheIterator over one fetched batch:
present ids are deserialized and yielded, an absent id is read-repaired from
the store (fatal on store error), a deserialization error is fatal. The Bool
is true when the loop ran to completion, false when it returned early; the
consumer is modelled as always pulling. -/
def processChunk (env : Env) (m : List (String × Asset)) :
    List String → List (Except String Asset) × List Ev × Bool
  | [] => ([], [], true)
  | id :: rest =>
    match lookupData m id with
    | none =>
      match env.storeFind id with
      | .error e =>
        ([.error ("failed to repair cache for id " ++ id ++ ": " ++ e)],
         [Ev.storeFindByID id], false)
      | .ok a =>
        let es := enrichAndSaveCache env a
        let c := processChunk env m rest
        (.ok es.1 :: c.1, (Ev.storeFindByID id :: es.2) ++ c.2.1, c.2.2)
    | some d =>
      match unmarshalData d with
      | .error e =>
        ([.error ("failed to unmarshal cached asset " ++ id ++ ": " ++ e)],
         [], false)
      | .ok a =>
        let c := processChunk env m rest
        (.ok a :: c.1, c.2.1, c.2.2)

/-- Fuel-indexed batching of the id list into slices of 100, mirroring the
for loop header of chunkedCacheIterator; the fuel (at least the list length)
only forces structural termination. -/
def chunksGo : Nat → List String → List (List String)
  | 0, _ => []
  | _, [] => []
  | fuel + 1, id :: rest => ((id :: rest).take 100) :: chunksGo fuel ((id :: rest).drop 100)

/-- The successive 100-element batches of the id list. -/
def chunksOf (ids : List String) : List (List String) := chunksGo ids.length ids

/-- Processing of the successive batches: GetBatch per batch (an error there
is fatal and yields the wrapped error), then the per-id loop; iteration stops
when a batch aborted early. -/
def runChunks (env : Env) : List (List String) → List (Except String Asset) × List Ev
  | [] => ([], [])
  | chunk :: rest =>
    match env.getBatch chunk with
    | .error e =>
      ([.error ("failed to fetch cache batch: " ++ e)], [Ev.cacheGetBatch chunk])
    | .ok m =>
      let p := processChunk env m chunk
      if p.2.2 then
        let c := runChunks env rest
        (p.1 ++ c.1, (Ev.cacheGetBatch chunk :: p.2.1) ++ c.2)
      else
        (p.1, Ev.cacheGetBatch chunk :: p.2.1)

/-- Service.chunkedCacheIterator, fully consumed: the yielded (asset, error)
pairs in order together with the port-call trace. -/
def chunkedCacheIterator (env : Env) (ids : List String) :
    List (Except String Asset) × List Ev :=
  runChunks env (chunksOf ids)

/-- Service.cacheIterator, fully consumed: an input error is re-yielded and
terminal; for each input asset the service calls enrichAndSaveCache twice
(lines 301 and 314 of the source) and yields the result of the second call. -/
def cacheIterator (env : Env) :
    List (Except String Asset) → List (Except String Asset) × List Ev
  | [] => ([], [])
  | .error e :: _ => ([.error e], [])
  | .ok a :: rest =>
    let es1 := enrichAndSaveCache env a
    let es2 := enrichAndSaveCache env a
    let c := cacheIterator env rest
    (.ok es2.1 :: c.1, (es1.2 ++ es2.2) ++ c.2)

/-- Store fallback branch of Service.FindAll: stream from the store and wrap
with the caching iterator; a store error when opening the sequence is
returned to the caller. -/
def findAllStore (env : Env) (limit offset : Int) (ev : Ev) :
    Except String (List (Except String Asset)) × List Ev :=
  match env.storeFindAll limit offset with
  | .error e => (.error e, [ev, Ev.storeFindAll limit offset])
  | .ok inp =>
    let c := cacheIterator env inp
    (.ok c.1, ev :: Ev.storeFindAll limit offset :: c.2)

/-- Service.FindAll: query the index range [offset, offset+limit-1]; a nil
error with a non-empty id list takes the chunked cache path, anything else
streams from the store. -/
def FindAll (env : Env) (limit offset : Int) :
    Except String (List (Except String Asset)) × List Ev :=
  let start : Int := offset
  let stop : Int := offset + limit - 1
  let ev := Ev.cacheGetIdsFromSet start stop
  match env.getIds start stop with
  | .ok ids =>
    if 0 < ids.length then
      let c := chunkedCacheIterator env ids
      (.ok c.1, ev :: c.2)
    else findAllStore env limit offset ev
  | .error _ => findAllStore env limit offset ev

/-- Service.Delete: ownership check against the store copy, store delete,
then the cache Remove result is returned to the caller directly. -/
def Delete (env : Env) (id userID : String) : Option String × List Ev :=
  match env.storeFind id with
  | .error e => (some e, [Ev.storeFindByID id])
  | .ok a =>
    if a.getUserID ≠ userID then
      (some "forbidden: you do not own this asset", [Ev.storeFindByID id])
    else
      match env.storeDelete id with
      | some e => (some e, [Ev.storeFindByID id, Ev.storeDelete id])
      | none =>
        (env.cacheRemove id, [Ev.storeFindByID id, Ev.storeDelete id, Ev.cacheRemove id])

/-- Service.UpdateDescription: ownership check against the store copy, store
update, then best-effort cache Remove whose error is logged and swallowed. -/
def UpdateDescription (env : Env) (id description userID : String) :
    Except String Asset × List Ev :=
  match env.storeFind id with
  | .error e => (.error e, [Ev.storeFindByID id])
  | .ok a =>
    if a.getUserID ≠ userID then
      (.error "forbidden: you do not own this asset", [Ev.storeFindByID id])
    else
      match env.storeUpdate id description with
      | .error e =>
        (.error e, [Ev.storeFindByID id, Ev.storeUpdateDescription id description])
      | .ok updated =>
        (.ok updated,
         [Ev.storeFindByID id, Ev.storeUpdateDescription id description, Ev.cacheRemove id])

end Service

/-- ZREVRANGE index arithmetic of the redis adapter backing GetIdsFromSet:
negative bounds count from the end, a start past the end or above the stop
yields the empty list, and the stop is clamped to the last element. -/
def redisRange (l : List String) (start stop : Int) : List String :=
  let n : Int := l.length
  let s0 : Int := if start < 0 then n + start else start
  let e0 : Int := if stop < 0 then n + stop else stop
  let s : Int := if s0 < 0 then 0 else s0
  if e0 < s ∨ n ≤ s then []
  else
    let e : Int := if n ≤ e0 then n - 1 else e0
    (l.drop s.toNat).take (e - s + 1).toNat

/-- Yielded pairs that carry an asset rather than an error. -/
def isOkItem : Except String Asset → Bool
  | .ok _ => true
  | .error _ => false

/-- Number of assets (not errors) in a fully consumed sequence. -/
def countOk (items : List (Except String Asset)) : Nat :=
  (items.filter isOkItem).length

/-- Number of assets yielded by a FindAll result (zero when FindAll itself
returned an error). -/
def countOkResult : Except String (List (Except String Asset)) → Nat
  | .error _ => 0
  | .ok items => countOk items

/-- A concrete valid Insight used by witnesses. -/
def demoAsset : Asset :=
  .insight
    { base := { id := "a1", userID := "u1", type := .insight, name := "n", description := "" }
      content := "c" }

/-- A benign environment in which every port call succeeds. -/
def env0 : Env where
  now := 0
  storeSave := fun _ => none
  storeFind := fun _ => .ok demoAsset
  storeDelete := fun _ => none
  storeUpdate := fun _ _ => .ok demoAsset
  storeFindAll := fun _ _ => .ok []
  enrich := fun _ => none
  getBatch := fun _ => .ok []
  getIds := fun _ _ => .ok []
  cacheAdd := fun _ _ => none
  cacheSetData := fun _ _ => none
  cacheRemove := fun _ => none

/-- Environment whose cache Remove fails while the store operations all
succeed. -/
def cexDeleteEnv : Env :=
  { env0 with cacheRemove := fun _ => some "cache unavailable" }

/-- Environment serving demoAsset bytes from the cache for every requested
id. -/
def hitEnv : Env :=
  { env0 with getBatch := fun ids => .ok (ids.map fun i => (i, demoAsset)) }

/-- Environment with a one-element cache index served under ZREVRANGE
semantics and a cache blob for that id. -/
def cexIndexEnv : Env :=
  { env0 with
      getIds := fun s e => .ok (redisRange ["a1"] s e)
      getBatch := fun ids => .ok (ids.map fun i => (i, demoAsset)) }

/-- Environment whose batch fetch always fails. -/
def cexBatchErrEnv : Env :=
  { env0 with getBatch := fun _ => .error "redis timeout" }

/-- A concrete Audience with min above a set max. -/
def badAudience : Audience :=
  { base := { id := "au1", userID := "u1", type := .audience, name := "n", description := "" }
    rules := { gender := "", country := "UK", ageMin := 30, ageMax := 20 } }

/-- Discriminator that matches the concrete variant. -/
def Asset.expectedType : Asset → AssetType
  | .chart _ => .chart
  | .insight _ => .insight
  | .audience _ => .audience

/-- Shared-field validity in the words of the spec: non-empty id, non-empty
name, discriminator matching the concrete variant. -/
def specSharedOk (a : Asset) : Prop :=
  a.base.id ≠ "" ∧ a.base.name ≠ "" ∧ a.base.type = a.expectedType

/-- Variant rule in the words of the spec: Chart needs one non-empty axis
label, Insight non-empty content, Audience a non-empty country, non-negative
age bounds and min at most max when max is set. -/
def specVariantOk : Asset → Prop
  | .chart c => c.xAxis ≠ "" ∨ c.yAxis ≠ ""
  | .insight i => i.content ≠ ""
  | .audience au =>
      au.rules.country ≠ "" ∧ 0 ≤ au.rules.ageMin ∧ 0 ≤ au.rules.ageMax ∧
        (0 < au.rules.ageMax → au.rules.ageMin ≤ au.rules.ageMax)

/-- A batch whose GetBatch succeeded and whose per-id loop ran to
completion, so iteration proceeds to the next batch. -/
def chunkContinues (env : Env) (chunk : List String) : Prop :=
  match env.getBatch chunk with
  | .error _ => False
  | .ok m => (Service.processChunk env m chunk).2.2 = true

/-- The items one batch contributes to the chunked sequence. -/
def chunkItems (env : Env) (chunk : List String) : List (Except String Asset) :=
  match env.getBatch chunk with
  | .error e => [.error ("failed to fetch cache batch: " ++ e)]
  | .ok m => (Service.processChunk env m chunk).1

/-- The port calls one batch contributes to the trace. -/
def chunkTrace (env : Env) (chunk : List String) : List Ev :=
  match env.getBatch chunk with
  | .error _ => [Ev.cacheGetBatch chunk]
  | .ok m => Ev.cacheGetBatch chunk :: (Service.processChunk env m chunk).2.1

/-- C1 counterexample: with the ownership check passing and the store delete
succeeding, a failing cache Remove makes Delete return that cache error to
the caller instead of reporting success. -/
theorem c1_delete_cache_error_returned :
    cexDeleteEnv.storeFind "a1" = .ok demoAsset ∧
    demoAsset.getUserID = "u1" ∧
    cexDeleteEnv.storeDelete "a1" = none ∧
    cexDeleteEnv.cacheRemove "a1" = some "cache unavailable" ∧
    (Service.Delete cexDeleteEnv "a1" "u1").1 = some "cache unavailable" :=
  ⟨rfl, rfl, rfl, rfl, rfl⟩

/-- C1 amended: when the ownership check passes and the store delete
succeeds, Delete returns the cache Remove result directly to the caller, so a
cache removal error is propagated rather than logged and swallowed. -/
theorem c1_delete_returns_cache_remove (env : Env) (id uid : String) (a : Asset)
    (hfind : env.storeFind id = .ok a)
    (hown : a.getUserID = uid)
    (hdel : env.storeDelete id = none) :
    Service.Delete env id uid =
      (env.cacheRemove id, [Ev.storeFindByID id, Ev.storeDelete id, Ev.cacheRemove id]) := by
  simp [Service.Delete, hfind, hown, hdel]

/-- Witness for the amended C1 theorem at a concrete environment. -/
theorem c1_delete_returns_cache_remove_witness :
    Service.Delete cexDeleteEnv "a1" "u1" =
      (some "cache unavailable",
       [Ev.storeFindByID "a1", Ev.storeDelete "a1", Ev.cacheRemove "a1"]) :=
  c1_delete_returns_cache_remove cexDeleteEnv "a1" "u1" demoAsset rfl rfl rfl

/-- C3: Save aborts on validation failure before any port call, aborts on a
store save failure before any cache or enricher call, and succeeds whenever
the store save succeeds, for every environment and hence under every enricher
or cache failure. -/
theorem c3_save_error_handling (env : Env) (a : Asset) :
    (∀ e, a.validate = some e →
      Service.Save env a = (some ("validation failed: " ++ e), [])) ∧
    (a.validate = none → ∀ e, env.storeSave a = some e →
      Service.Save env a = (some ("failed to save to db: " ++ e), [Ev.storeSave a])) ∧
    (a.validate = none → env.storeSave a = none →
      Service.Save env a =
        (none, [Ev.storeSave a, Ev.enrich a,
                Ev.cacheAddToSet a.getID env.now, Ev.cacheSetData a.getID a])) := by
  refine ⟨?_, ?_, ?_⟩
  · intro e hv
    simp [Service.Save, hv]
  · intro hv e hs
    simp [Service.Save, hv, hs]
  · intro hv hs
    simp [Service.Save, hv, hs, Service.enrichAndSaveCache, Service.updateCache]

/-- Witness for C3 at a concrete valid asset and succeeding store. -/
theorem c3_save_error_handling_witness :
    Service.Save env0 demoAsset =
      (none, [Ev.storeSave demoAsset, Ev.enrich demoAsset,
              Ev.cacheAddToSet "a1" 0, Ev.cacheSetData "a1" demoAsset]) :=
  (c3_save_error_handling env0 demoAsset).2.2 rfl rfl

/-- A lookup that finds a pair forces the list to be non-empty. -/
theorem lookupData_some_ne_nil {m : List (String × Asset)} {id : String} {d : Asset}
    (h : lookupData m id = some d) : m ≠ [] := by
  intro hm
  subst hm
  simp [lookupData] at h

/-- C4: on a FindByID cache miss (batch error, or id absent from a batch
result whose keys all come from the request, as the redis adapter
guarantees), the store is consulted exactly once, a store error is propagated
unchanged, and on store success the asset is enriched once and both cache
writes are issued before it is returned. -/
theorem c4_findByID_miss (env : Env) (id : String)
    (hmiss : ∀ m, env.getBatch [id] = .ok m →
      lookupData m id = none ∧ ∀ p ∈ m, p.1 = id) :
    Service.FindByID env id =
      match env.storeFind id with
      | .error e => (.error e, [Ev.cacheGetBatch [id], Ev.storeFindByID id])
      | .ok a =>
        (.ok a, [Ev.cacheGetBatch [id], Ev.storeFindByID id, Ev.enrich a,
                 Ev.cacheAddToSet a.getID env.now, Ev.cacheSetData a.getID a]) := by
  have hstore : Service.findByIDMiss env id =
      match env.storeFind id with
      | .error e => (.error e, [Ev.storeFindByID id])
      | .ok a =>
        (.ok a, [Ev.storeFindByID id, Ev.enrich a,
                 Ev.cacheAddToSet a.getID env.now, Ev.cacheSetData a.getID a]) := by
    cases hf : env.storeFind id <;>
      simp [Service.findByIDMiss, hf, Service.enrichAndSaveCache, Service.updateCache]
  cases hb : env.getBatch [id] with
  | error e =>
    cases hf : env.storeFind id <;>
      simp [Service.FindByID, hb, hstore, hf]
  | ok m =>
    have hempty : m = [] := by
      rcases hmiss m hb with ⟨hlook, hkeys⟩
      cases m with
      | nil => rfl
      | cons p rest =>
        have hp : p.1 = id := hkeys p (by simp)
        simp [lookupData, hp] at hlook
    subst hempty
    cases hf : env.storeFind id <;>
      simp [Service.FindByID, hb, hstore, hf]

/-- Witness for C4: empty batch result, store hit, full read-repair trace. -/
theorem c4_findByID_miss_witness :
    Service.FindByID env0 "a1" =
      (.ok demoAsset,
       [Ev.cacheGetBatch ["a1"], Ev.storeFindByID "a1", Ev.enrich demoAsset,
        Ev.cacheAddToSet "a1" 0, Ev.cacheSetData "a1" demoAsset]) := by
  have h := c4_findByID_miss env0 "a1" (by intro m hm; cases hm; exact ⟨rfl, by simp⟩)
  simpa using h

/-- C5: on a cache hit carrying decodable bytes for the id, FindByID returns
the deserialized asset and the trace holds the single GetBatch call only: no
store and no enricher call occurs. -/
theorem c5_findByID_hit (env : Env) (id : String) (m : List (String × Asset))
    (d a : Asset)
    (hb : env.getBatch [id] = .ok m)
    (hd : lookupData m id = some d)
    (hdec : unmarshalData d = .ok a) :
    Service.FindByID env id = (.ok a, [Ev.cacheGetBatch [id]]) := by
  have hne : m ≠ [] := lookupData_some_ne_nil hd
  have hlen : 0 < m.length := List.length_pos.mpr hne
  simp [Service.FindByID, hb, hlen, hd, unmarshalOptData, hdec]

/-- Witness for C5 at a concrete cache hit. -/
theorem c5_findByID_hit_witness :
    Service.FindByID hitEnv "a1" = (.ok demoAsset, [Ev.cacheGetBatch ["a1"]]) :=
  c5_findByID_hit hitEnv "a1" [("a1", demoAsset)] demoAsset demoAsset rfl rfl rfl

/-- C8: when the store copy of the asset has an owner other than the caller,
Delete and UpdateDescription both return the forbidden error with a trace
holding only the store read: the ownership check reads from the store, and no
store mutation and no cache call happens. -/
theorem c8_forbidden_no_mutation (env : Env) (id uid desc : String) (a : Asset)
    (hfind : env.storeFind id = .ok a)
    (hown : a.getUserID ≠ uid) :
    Service.Delete env id uid =
      (some "forbidden: you do not own this asset", [Ev.storeFindByID id]) ∧
    Service.UpdateDescription env id desc uid =
      (.error "forbidden: you do not own this asset", [Ev.storeFindByID id]) := by
  constructor
  · simp [Service.Delete, hfind, hown]
  · simp [Service.UpdateDescription, hfind, hown]

/-- Witness for C8 with a caller who does not own the stored asset. -/
theorem c8_forbidden_no_mutation_witness :
    Service.Delete env0 "a1" "intruder" =
      (some "forbidden: you do not own this asset", [Ev.storeFindByID "a1"]) ∧
    Service.UpdateDescription env0 "a1" "d" "intruder" =
      (.error "forbidden: you do not own this asset", [Ev.storeFindByID "a1"]) :=
  c8_forbidden_no_mutation env0 "a1" "intruder" "d" demoAsset rfl (by decide)

/-- C10: on the store-backed FindAll path, for every asset produced by the
store iterator the caching iterator performs the enrich plus index-add plus
blob-set write-through twice, not once, before yielding the asset. -/
theorem c10_cacheIterator_double_enrich (env : Env) (a : Asset)
    (rest : List (Except String Asset)) :
    Service.cacheIterator env (.ok a :: rest) =
      (.ok a :: (Service.cacheIterator env rest).1,
       [Ev.enrich a, Ev.cacheAddToSet a.getID env.now, Ev.cacheSetData a.getID a,
        Ev.enrich a, Ev.cacheAddToSet a.getID env.now, Ev.cacheSetData a.getID a]
         ++ (Service.cacheIterator env rest).2) := rfl

/-- ValidateCommon succeeds exactly on valid shared fields. -/
theorem validateCommon_none_iff (b : BaseAsset) (t : AssetType) :
    b.validateCommon t = none ↔ b.id ≠ "" ∧ b.name ≠ "" ∧ b.type = t := by
  unfold BaseAsset.validateCommon
  split_ifs with h1 h2 h3 <;> simp_all

/-- C9: Validate succeeds exactly on valid shared fields plus the variant
rule; a failing shared check short-circuits with its own error before any
variant check, and each violated rule yields its exact Go error message. -/
theorem c9_validate_cases (a : Asset) :
    (a.validate = none ↔ specSharedOk a ∧ specVariantOk a) ∧
    (∀ e, a.base.validateCommon a.expectedType = some e → a.validate = some e) ∧
    (a.base.id = "" →
      a.validate = some (errValidation ++ ": id is required")) ∧
    (a.base.id ≠ "" → a.base.name = "" →
      a.validate = some (errValidation ++ ": name is required")) ∧
    (a.base.id ≠ "" → a.base.name ≠ "" → a.base.type ≠ a.expectedType →
      a.validate = some (errValidation ++ ": invalid asset type: expected "
        ++ a.expectedType.name ++ ", got " ++ a.base.type.name)) ∧
    (∀ c, a = .chart c → specSharedOk a → c.xAxis = "" → c.yAxis = "" →
      a.validate = some (errValidation ++ ": chart requires at least one axis to be defined")) ∧
    (∀ i, a = .insight i → specSharedOk a → i.content = "" →
      a.validate = some (errValidation ++ ": content is required for Insight")) ∧
    (∀ au, a = .audience au → specSharedOk a → au.rules.country = "" →
      a.validate = some (errValidation ++ ": country rule is required for Audience")) ∧
    (∀ au, a = .audience au → specSharedOk a → au.rules.country ≠ "" →
      (au.rules.ageMin < 0 ∨ au.rules.ageMax < 0) →
      a.validate = some (errValidation ++ ": age limits cannot be negative")) ∧
    (∀ au, a = .audience au → specSharedOk a → au.rules.country ≠ "" →
      0 ≤ au.rules.ageMin → 0 ≤ au.rules.ageMax → 0 < au.rules.ageMax →
      au.rules.ageMax < au.rules.ageMin →
      a.validate = some (errValidation ++ ": age_min cannot be greater than age_max")) := by
  cases a with
  | chart c =>
    refine ⟨?_, ?_, ?_, ?_, ?_, ?_, ?_, ?_, ?_, ?_⟩
    · cases hvc : c.base.validateCommon .chart with
      | some e =>
        constructor
        · intro h
          simp [Asset.validate, Chart.validate, hvc] at h
        · rintro ⟨⟨h1, h2, h3⟩, _⟩
          have hnone := (validateCommon_none_iff c.base .chart).mpr ⟨h1, h2, h3⟩
          rw [hnone] at hvc
          cases hvc
      | none =>
        have hshared := (validateCommon_none_iff c.base .chart).mp hvc
        simp [Asset.validate, Chart.validate, hvc, specSharedOk, specVariantOk,
          Asset.base, Asset.expectedType, hshared]
        tauto
    · intro e he
      simp only [Asset.base, Asset.expectedType] at he
      simp [Asset.validate, Chart.validate, he]
    · intro h
      simp [Asset.validate, Chart.validate, BaseAsset.validateCommon, Asset.base] at *
      simp [h]
    · intro h1 h2
      simp [Asset.base] at h1 h2
      simp [Asset.validate, Chart.validate, BaseAsset.validateCommon, h1, h2]
    · intro h1 h2 h3
      simp [Asset.base, Asset.expectedType] at h1 h2 h3
      simp [Asset.validate, Chart.validate, BaseAsset.validateCommon,
        Asset.base, Asset.expectedType, h1, h2, h3]
    · intro c2 hc hshared hx hy
      cases hc
      rcases hshared with ⟨h1, h2, h3⟩
      simp [Asset.base, Asset.expectedType] at h1 h2 h3
      simp [Asset.validate, Chart.validate, BaseAsset.validateCommon, h1, h2, h3, hx, hy]
    · intro i hi; simp at hi
    · intro au hau; simp at hau
    · intro au hau; simp at hau
    · intro au hau; simp at hau
  | insight i =>
    refine ⟨?_, ?_, ?_, ?_, ?_, ?_, ?_, ?_, ?_, ?_⟩
    · cases hvc : i.base.validateCommon .insight with
      | some e =>
        constructor
        · intro h
          simp [Asset.validate, Insight.validate, hvc] at h
        · rintro ⟨⟨h1, h2, h3⟩, _⟩
          have hnone := (validateCommon_none_iff i.base .insight).mpr ⟨h1, h2, h3⟩
          rw [hnone] at hvc
          cases hvc
      | none =>
        have hshared := (validateCommon_none_iff i.base .insight).mp hvc
        simp [Asset.validate, Insight.validate, hvc, specSharedOk, specVariantOk,
          Asset.base, Asset.expectedType, hshared]
    · intro e he
      simp only [Asset.base, Asset.expectedType] at he
      simp [Asset.validate, Insight.validate, he]
    · intro h
      simp [Asset.base] at h
      simp [Asset.validate, Insight.validate, BaseAsset.validateCommon, h]
    · intro h1 h2
      simp [Asset.base] at h1 h2
      simp [Asset.validate, Insight.validate, BaseAsset.validateCommon, h1, h2]
    · intro h1 h2 h3
      simp [Asset.base, Asset.expectedType] at h1 h2 h3
      simp [Asset.validate, Insight.validate, BaseAsset.validateCommon,
        Asset.base, Asset.expectedType, h1, h2, h3]
    · intro c hc; simp at hc
    · intro i2 hi hshared hcont
      cases hi
      rcases hshared with ⟨h1, h2, h3⟩
      simp [Asset.base, Asset.expectedType] at h1 h2 h3
      simp [Asset.validate, Insight.validate, BaseAsset.validateCommon, h1, h2, h3, hcont]
    · intro au hau; simp at hau
    · intro au hau; simp at hau
    · intro au hau; simp at hau
  | audience au =>
    refine ⟨?_, ?_, ?_, ?_, ?_, ?_, ?_, ?_, ?_, ?_⟩
    · cases hvc : au.base.validateCommon .audience with
      | some e =>
        constructor
        · intro h
          simp [Asset.validate, Audience.validate, hvc] at h
        · rintro ⟨⟨h1, h2, h3⟩, _⟩
          have hnone := (validateCommon_none_iff au.base .audience).mpr ⟨h1, h2, h3⟩
          rw [hnone] at hvc
          cases hvc
      | none =>
        have hshared := (validateCommon_none_iff au.base .audience).mp hvc
        simp [Asset.validate, Audience.validate, hvc, specSharedOk, specVariantOk,
          Asset.base, Asset.expectedType, hshared]
        constructor
        · intro h
          split_ifs at h with hc hneg hmm
          · push_neg at hc hneg
            refine ⟨hc, hneg.1, hneg.2, ?_⟩
            intro hmax
            by_contra hlt
            push_neg at hlt
            exact hmm ⟨hmax, hlt⟩
        · rintro ⟨hc, hmin, hmax, hmm⟩
          have h1 : ¬ au.rules.country = "" := hc
          have h2 : ¬ (au.rules.ageMin < 0 ∨ au.rules.ageMax < 0) := by omega
          have h3 : ¬ (au.rules.ageMax > 0 ∧ au.rules.ageMin > au.rules.ageMax) := by
            rintro ⟨ha, hb⟩
            exact absurd (hmm ha) (by omega)
          simp [h1, h2, h3]
    · intro e he
      simp only [Asset.base, Asset.expectedType] at he
      simp [Asset.validate, Audience.validate, he]
    · intro h
      simp [Asset.base] at h
      simp [Asset.validate, Audience.validate, BaseAsset.validateCommon, h]
    · intro h1 h2
      simp [Asset.base] at h1 h2
      simp [Asset.validate, Audience.validate, BaseAsset.validateCommon, h1, h2]
    · intro h1 h2 h3
      simp [Asset.base, Asset.expectedType] at h1 h2 h3
      simp [Asset.validate, Audience.validate, BaseAsset.validateCommon,
        Asset.base, Asset.expectedType, h1, h2, h3]
    · intro c hc; simp at hc
    · intro i hi; simp at hi
    · intro au2 hau hshared hc
      cases hau
      rcases hshared with ⟨h1, h2, h3⟩
      simp [Asset.base, Asset.expectedType] at h1 h2 h3
      simp [Asset.validate, Audience.validate, BaseAsset.validateCommon, h1, h2, h3, hc]
    · intro au2 hau hshared hc hneg
      cases hau
      rcases hshared with ⟨h1, h2, h3⟩
      simp [Asset.base, Asset.expectedType] at h1 h2 h3
      simp [Asset.validate, Audience.validate, BaseAsset.validateCommon, h1, h2, h3, hc, hneg]
    · intro au2 hau hshared hc hmin hmax hpos hlt
      cases hau
      rcases hshared with ⟨h1, h2, h3⟩
      simp [Asset.base, Asset.expectedType] at h1 h2 h3
      have hneg : ¬ (au.rules.ageMin < 0 ∨ au.rules.ageMax < 0) := by omega
      have hgt : au.rules.ageMax > 0 ∧ au.rules.ageMin > au.rules.ageMax := by omega
      simp [Asset.validate, Audience.validate, BaseAsset.validateCommon,
        h1, h2, h3, hc, hneg, hgt]

/-- Witness for C9 at a concrete Audience violating the age-range rule. -/
theorem c9_validate_cases_witness :
    (Asset.audience badAudience).validate
      = some (errValidation ++ ": age_min cannot be greater than age_max") :=
  (c9_validate_cases (Asset.audience badAudience)).2.2.2.2.2.2.2.2.2 badAudience rfl
    (by refine ⟨by decide, by decide, rfl⟩) (by decide) (by decide) (by decide)
    (by decide) (by decide)

/-- The fuel of chunksGo is irrelevant once it covers the list length. -/
theorem chunksGo_fuel :
    ∀ (fuel : Nat) (l : List String), l.length ≤ fuel →
      Service.chunksGo fuel l = Service.chunksGo l.length l := by
  intro fuel
  induction fuel using Nat.strong_induction_on with
  | _ fuel ih =>
    intro l hl
    match fuel, l with
    | 0, l =>
      have hnil : l = [] := List.length_eq_zero.mp (Nat.le_zero.mp hl)
      subst hnil
      rfl
    | n + 1, [] => rfl
    | n + 1, id :: rest =>
      have hdn : ((id :: rest).drop 100).length ≤ n := by
        simp only [List.length_drop, List.length_cons] at *
        omega
      have hdr : ((id :: rest).drop 100).length ≤ rest.length := by
        simp only [List.length_drop, List.length_cons]
        omega
      have h1 := ih n (Nat.lt_succ_self n) ((id :: rest).drop 100) hdn
      have h2 := ih rest.length (by simp only [List.length_cons] at hl; omega)
        ((id :: rest).drop 100) hdr
      show ((id :: rest).take 100) :: Service.chunksGo n ((id :: rest).drop 100)
          = Service.chunksGo (rest.length + 1) (id :: rest)
      rw [show Service.chunksGo (rest.length + 1) (id :: rest)
          = ((id :: rest).take 100) :: Service.chunksGo rest.length ((id :: rest).drop 100)
          from rfl]
      rw [h1, h2]

/-- Unfolding of chunksOf on a non-empty list. -/
theorem chunksOf_cons (id : String) (rest : List String) :
    Service.chunksOf (id :: rest)
      = ((id :: rest).take 100) :: Service.chunksOf ((id :: rest).drop 100) := by
  have hdr : ((id :: rest).drop 100).length ≤ rest.length := by
    simp only [List.length_drop, List.length_cons]
    omega
  show Service.chunksGo (rest.length + 1) (id :: rest) = _
  rw [show Service.chunksGo (rest.length + 1) (id :: rest)
      = ((id :: rest).take 100) :: Service.chunksGo rest.length ((id :: rest).drop 100)
      from rfl]
  rw [chunksGo_fuel rest.length _ hdr]
  rfl

/-- The batches of chunksOf partition the id list, so their lengths sum to
the length of the list. -/
theorem chunksOf_sum :
    ∀ (n : Nat) (l : List String), l.length ≤ n →
      ((Service.chunksOf l).map List.length).sum = l.length := by
  intro n
  induction n with
  | zero =>
    intro l hl
    have : l = [] := List.length_eq_zero.mp (Nat.le_zero.mp hl)
    subst this
    rfl
  | succ n ih =>
    intro l hl
    cases l with
    | nil => rfl
    | cons id rest =>
      rw [chunksOf_cons]
      have hdrop : ((id :: rest).drop 100).length ≤ n := by
        simp only [List.length_drop, List.length_cons] at *
        omega
      simp only [List.map_cons, List.sum_cons, ih _ hdrop,
        List.length_take, List.length_drop, List.length_cons]
      omega

/-- countOk distributes over append. -/
theorem countOk_append (l1 l2 : List (Except String Asset)) :
    countOk (l1 ++ l2) = countOk l1 + countOk l2 := by
  simp [countOk, List.filter_append]

/-- countOk of an asset cons. -/
theorem countOk_ok_cons (a : Asset) (l : List (Except String Asset)) :
    countOk (.ok a :: l) = countOk l + 1 := by
  simp [countOk, List.filter, isOkItem]

/-- countOk of an error cons. -/
theorem countOk_error_cons (e : String) (l : List (Except String Asset)) :
    countOk (.error e :: l) = countOk l := by
  simp [countOk, List.filter, isOkItem]

/-- countOk never exceeds the number of yielded items. -/
theorem countOk_le_length (l : List (Except String Asset)) :
    countOk l ≤ l.length :=
  List.length_filter_le _ _

/-- The per-id loop yields at most one item per requested id. -/
theorem processChunk_length_le (env : Env) (m : List (String × Asset)) :
    ∀ l : List String, (Service.processChunk env m l).1.length ≤ l.length := by
  intro l
  induction l with
  | nil => simp [Service.processChunk]
  | cons id rest ih =>
    cases hl : lookupData m id with
    | none =>
      cases hf : env.storeFind id with
      | error e =>
        simp [Service.processChunk, hl, hf]
      | ok a =>
        simp [Service.processChunk, hl, hf]
        omega
    | some d =>
      cases hu : unmarshalData d with
      | error e =>
        simp [Service.processChunk, hl, hu]
      | ok a =>
        simp [Service.processChunk, hl, hu]
        omega

/-- The chunked iterator yields at most one asset per id taken from the
index, over all batches. -/
theorem runChunks_countOk_le (env : Env) :
    ∀ chs : List (List String),
      countOk (Service.runChunks env chs).1 ≤ (chs.map List.length).sum := by
  intro chs
  induction chs with
  | nil => simp [Service.runChunks, countOk]
  | cons chunk rest ih =>
    cases hb : env.getBatch chunk with
    | error e =>
      simp [Service.runChunks, hb, countOk, isOkItem, List.filter]
    | ok m =>
      have hchunk : countOk (Service.processChunk env m chunk).1 ≤ chunk.length :=
        le_trans (countOk_le_length _) (processChunk_length_le env m chunk)
      by_cases hflag : (Service.processChunk env m chunk).2.2 = true
      · simp only [Service.runChunks, hb, hflag, if_true, List.map_cons, List.sum_cons]
        rw [countOk_append]
        omega
      · simp only [Service.runChunks, hb, hflag, if_false, List.map_cons, List.sum_cons,
          Bool.false_eq_true]
        omega

/-- The caching iterator of the store-backed path yields at most as many
assets as its input sequence holds. -/
theorem cacheIterator_countOk_le (env : Env) :
    ∀ items : List (Except String Asset),
      countOk (Service.cacheIterator env items).1 ≤ countOk items := by
  intro items
  induction items with
  | nil => simp [Service.cacheIterator]
  | cons x rest ih =>
    cases x with
    | error e =>
      simp [Service.cacheIterator, countOk, isOkItem, List.filter]
    | ok a =>
      simp only [Service.cacheIterator, countOk_ok_cons]
      omega

/-- ZREVRANGE with non-negative start and a stop of start plus limit minus
one returns at most limit ids. -/
theorem redisRange_length_le (idx : List String) (offset limit : Int)
    (ho : 0 ≤ offset) (hl : 1 ≤ limit) :
    (redisRange idx offset (offset + limit - 1)).length ≤ limit.toNat := by
  unfold redisRange
  have h1 : ¬ (offset < 0) := by omega
  have h2 : ¬ (offset + limit - 1 < 0) := by omega
  simp only [h1, if_false, h2, ite_false]
  split_ifs with h3 h4
  · simp
  · simp only [List.length_take, List.length_drop]
    have : ((idx.length : Int) - 1 - offset + 1).toNat ≤ limit.toNat := by
      push_neg at h3
      omega
    omega
  · simp only [List.length_take, List.length_drop]
    have : (offset + limit - 1 - offset + 1).toNat = limit.toNat := by omega
    omega

/-- ZREVRANGE with a limit of zero and a positive offset returns the empty
range, because the stop bound offset minus one sits strictly below start. -/
theorem redisRange_zero_limit (idx : List String) (offset : Int)
    (ho : 1 ≤ offset) :
    redisRange idx offset (offset + 0 - 1) = [] := by
  unfold redisRange
  have h1 : ¬ (offset < 0) := by omega
  have h2 : ¬ (offset + 0 - 1 < 0) := by omega
  simp only [h1, if_false, h2, ite_false]
  split_ifs with h3 h4
  · rfl
  · exfalso
    push_neg at h3
    omega
  · exfalso
    push_neg at h3
    omega

/-- C2 counterexample: with limit zero and offset zero the computed stop
bound is minus one, which ZREVRANGE reads as to-the-end, so FindAll(0, 0)
yields one asset per entry of the non-empty cache index instead of none. -/
theorem c2_findAll_zero_zero_yields_index :
    cexIndexEnv.getIds 0 (0 + 0 - 1) = .ok ["a1"] ∧
    countOkResult (Service.FindAll cexIndexEnv 0 0).1 = 1 :=
  ⟨rfl, rfl⟩

/-- C2 amended: when the index implements ZREVRANGE semantics and the store
honors its LIMIT clause, FindAll yields at most limit assets for every limit
of at least one, and yields none for limit zero with positive offset; the
remaining case limit = offset = 0 computes the to-the-end stop bound -1 and
is the counterexample case. -/
theorem c2_findAll_at_most_limit (env : Env) (idx : List String)
    (hc : ∀ s e, env.getIds s e = .ok (redisRange idx s e))
    (hs : ∀ l o items, env.storeFindAll l o = .ok items → countOk items ≤ l.toNat)
    (limit offset : Int) (ho : 0 ≤ offset) :
    (1 ≤ limit → countOkResult (Service.FindAll env limit offset).1 ≤ limit.toNat) ∧
    (limit = 0 → 1 ≤ offset → countOkResult (Service.FindAll env limit offset).1 = 0) := by
  have hstorePath : ∀ ev, countOkResult (Service.findAllStore env limit offset ev).1
      ≤ limit.toNat := by
    intro ev
    cases hsf : env.storeFindAll limit offset with
    | error e => simp [Service.findAllStore, hsf, countOkResult]
    | ok inp =>
      have h1 := cacheIterator_countOk_le env inp
      have h2 := hs limit offset inp hsf
      simp only [Service.findAllStore, hsf, countOkResult]
      omega
  constructor
  · intro hl
    have hids := hc offset (offset + limit - 1)
    have hlen : (redisRange idx offset (offset + limit - 1)).length ≤ limit.toNat :=
      redisRange_length_le idx offset limit ho hl
    by_cases hpos : 0 < (redisRange idx offset (offset + limit - 1)).length
    · have hcount : countOk (Service.chunkedCacheIterator env
          (redisRange idx offset (offset + limit - 1))).1
          ≤ (redisRange idx offset (offset + limit - 1)).length := by
        have h1 := runChunks_countOk_le env
          (Service.chunksOf (redisRange idx offset (offset + limit - 1)))
        have h2 := chunksOf_sum
          (redisRange idx offset (offset + limit - 1)).length
          (redisRange idx offset (offset + limit - 1)) le_rfl
        simpa [Service.chunkedCacheIterator, h2] using h1
      simp only [Service.FindAll, hids, hpos, if_true, countOkResult]
      omega
    · simp only [Service.FindAll, hids, hpos, if_false]
      exact hstorePath _
  · intro hzero hoff
    subst hzero
    have hids := hc offset (offset + 0 - 1)
    rw [redisRange_zero_limit idx offset hoff] at hids
    have : countOkResult (Service.FindAll env 0 offset).1 ≤ (0 : Int).toNat := by
      simp only [Service.FindAll, hids, List.length_nil, lt_irrefl, if_false]
      exact hstorePath _
    omega

/-- Witness for the amended C2 theorem at a concrete environment. -/
theorem c2_findAll_at_most_limit_witness :
    countOkResult (Service.FindAll cexIndexEnv 10 0).1 ≤ (10 : Int).toNat :=
  (c2_findAll_at_most_limit cexIndexEnv ["a1"] (fun _ _ => rfl)
    (by intro l o items h; cases h; simp [countOk]) 10 0 (by norm_num)).1 (by norm_num)

/-- Appending id lists composes the per-id loop when the first part ran to
completion. -/
theorem processChunk_append (env : Env) (m : List (String × Asset)) :
    ∀ l1 l2 : List String, (Service.processChunk env m l1).2.2 = true →
      Service.processChunk env m (l1 ++ l2) =
        ((Service.processChunk env m l1).1 ++ (Service.processChunk env m l2).1,
         (Service.processChunk env m l1).2.1 ++ (Service.processChunk env m l2).2.1,
         (Service.processChunk env m l2).2.2) := by
  intro l1
  induction l1 with
  | nil =>
    intro l2 _
    simp [Service.processChunk]
  | cons id rest ih =>
    intro l2 hflag
    cases hl : lookupData m id with
    | none =>
      cases hf : env.storeFind id with
      | error e =>
        exfalso
        simp [Service.processChunk, hl, hf] at hflag
      | ok a =>
        have hrest : (Service.processChunk env m rest).2.2 = true := by
          simpa [Service.processChunk, hl, hf] using hflag
        simp [Service.processChunk, hl, hf, ih l2 hrest]
    | some d =>
      cases hu : unmarshalData d with
      | error e =>
        exfalso
        simp [Service.processChunk, hl, hu] at hflag
      | ok a =>
        have hrest : (Service.processChunk env m rest).2.2 = true := by
          simpa [Service.processChunk, hl, hu] using hflag
        simp [Service.processChunk, hl, hu, ih l2 hrest]

/-- C6: during chunked iteration, an index id absent from its batch result
whose store lookup succeeds is read-repaired in place: the store is read,
the asset is enriched and written through to the cache, the repaired asset
is yielded in that position, and the rest of the batch continues. -/
theorem c6_read_repair_in_place (env : Env) (m : List (String × Asset))
    (pre post : List String) (id : String) (a : Asset)
    (hpre : (Service.processChunk env m pre).2.2 = true)
    (habs : lookupData m id = none)
    (hrep : env.storeFind id = .ok a) :
    Service.processChunk env m (pre ++ id :: post) =
      ((Service.processChunk env m pre).1 ++ .ok a :: (Service.processChunk env m post).1,
       (Service.processChunk env m pre).2.1
         ++ Ev.storeFindByID id :: Ev.enrich a :: Ev.cacheAddToSet a.getID env.now
         :: Ev.cacheSetData a.getID a :: (Service.processChunk env m post).2.1,
       (Service.processChunk env m post).2.2) := by
  rw [processChunk_append env m pre (id :: post) hpre]
  simp [Service.processChunk, habs, hrep, Service.enrichAndSaveCache, Service.updateCache]

/-- Witness for C6: a single absent id repaired from the store. -/
theorem c6_read_repair_in_place_witness :
    Service.processChunk env0 [] ["b1"] =
      ([.ok demoAsset],
       [Ev.storeFindByID "b1", Ev.enrich demoAsset,
        Ev.cacheAddToSet "a1" 0, Ev.cacheSetData "a1" demoAsset],
       true) := by
  have h := c6_read_repair_in_place env0 [] [] [] "b1" demoAsset rfl rfl rfl
  simpa [Service.processChunk] using h

/-- A completed per-id loop yielded only assets, never an error item. -/
theorem processChunk_flag_ok (env : Env) (m : List (String × Asset)) :
    ∀ l : List String, (Service.processChunk env m l).2.2 = true →
      ∀ x ∈ (Service.processChunk env m l).1, ∃ a, x = .ok a := by
  intro l
  induction l with
  | nil =>
    intro _ x hx
    simp [Service.processChunk] at hx
  | cons id rest ih =>
    intro hflag x hx
    cases hl : lookupData m id with
    | none =>
      cases hf : env.storeFind id with
      | error e =>
        exfalso
        simp [Service.processChunk, hl, hf] at hflag
      | ok a =>
        rw [show Service.processChunk env m (id :: rest)
            = (.ok a :: (Service.processChunk env m rest).1,
               (Ev.storeFindByID id :: (Service.enrichAndSaveCache env a).2)
                 ++ (Service.processChunk env m rest).2.1,
               (Service.processChunk env m rest).2.2) from by
          simp [Service.processChunk, hl, hf, Service.enrichAndSaveCache]] at hflag hx
        rcases List.mem_cons.mp hx with h | h
        · exact ⟨a, h⟩
        · exact ih hflag x h
    | some d =>
      cases hu : unmarshalData d with
      | error e =>
        exfalso
        simp [Service.processChunk, hl, hu] at hflag
      | ok a =>
        rw [show Service.processChunk env m (id :: rest)
            = (.ok a :: (Service.processChunk env m rest).1,
               (Service.processChunk env m rest).2.1,
               (Service.processChunk env m rest).2.2) from by
          simp [Service.processChunk, hl, hu]] at hflag hx
        rcases List.mem_cons.mp hx with h | h
        · exact ⟨a, h⟩
        · exact ih hflag x h

/-- Batch processing after a clean prefix of batches ends at the first batch
whose GetBatch fails, with the wrapped error as last item and the failing
GetBatch as last port call. -/
theorem runChunks_prefix_batch_error (env : Env) :
    ∀ (chs1 : List (List String)) (chunk : List String) (chs2 : List (List String))
      (e : String),
      (∀ c ∈ chs1, chunkContinues env c) →
      env.getBatch chunk = .error e →
      Service.runChunks env (chs1 ++ chunk :: chs2) =
        ((chs1.map (chunkItems env)).flatten
           ++ [.error ("failed to fetch cache batch: " ++ e)],
         (chs1.map (chunkTrace env)).flatten ++ [Ev.cacheGetBatch chunk]) := by
  intro chs1
  induction chs1 with
  | nil =>
    intro chunk chs2 e _ herr
    simp [Service.runChunks, herr]
  | cons c tl ih =>
    intro chunk chs2 e hgood herr
    have hc := hgood c (by simp)
    unfold chunkContinues at hc
    cases hb : env.getBatch c with
    | error e2 =>
      rw [hb] at hc
      exact absurd hc id
    | ok m =>
      rw [hb] at hc
      have hcflag : (Service.processChunk env m c).2.2 = true := hc
      have hitems : chunkItems env c = (Service.processChunk env m c).1 := by
        simp [chunkItems, hb]
      have htrace : chunkTrace env c
          = Ev.cacheGetBatch c :: (Service.processChunk env m c).2.1 := by
        simp [chunkTrace, hb]
      have hrec := ih chunk chs2 e (fun c2 hc2 => hgood c2 (by simp [hc2])) herr
      show Service.runChunks env (c :: (tl ++ chunk :: chs2)) = _
      simp only [Service.runChunks, hb, hcflag, if_true, hrec, List.map_cons,
        List.flatten_cons, hitems, htrace]
      simp

/-- The last element of a list ending in an appended singleton. -/
theorem getLast_append_singleton {α : Type} :
    ∀ (l : List α) (a : α), (l ++ [a]).getLast? = some a := by
  intro l a
  rw [List.getLast?_append_of_ne_nil _ (by simp)]
  rfl

/-- C7: a GetBatch error on any batch of the chunked iteration, reached
after batches that completed normally, makes the sequence yield the items of
the earlier batches (all of them assets, none skipped) followed by exactly
the wrapped batch error as final element, and the failing GetBatch is the
last port call: iteration terminates there. -/
theorem c7_batch_error_fatal (env : Env) (ids : List String)
    (chs1 chs2 : List (List String)) (chunk : List String) (e : String)
    (hdecomp : Service.chunksOf ids = chs1 ++ chunk :: chs2)
    (hgood : ∀ c ∈ chs1, chunkContinues env c)
    (herr : env.getBatch chunk = .error e) :
    (Service.chunkedCacheIterator env ids).1
      = (chs1.map (chunkItems env)).flatten
          ++ [.error ("failed to fetch cache batch: " ++ e)]
    ∧ (Service.chunkedCacheIterator env ids).2.getLast?
        = some (Ev.cacheGetBatch chunk)
    ∧ ∀ x ∈ (chs1.map (chunkItems env)).flatten, ∃ a, x = .ok a := by
  have h := runChunks_prefix_batch_error env chs1 chunk chs2 e hgood herr
  have heq : Service.chunkedCacheIterator env ids
      = Service.runChunks env (chs1 ++ chunk :: chs2) := by
    rw [Service.chunkedCacheIterator, hdecomp]
  refine ⟨?_, ?_, ?_⟩
  · rw [heq, h]
  · rw [heq, h]
    exact getLast_append_singleton _ _
  · intro x hx
    rcases List.mem_flatten.mp hx with ⟨l, hl, hxl⟩
    rcases List.mem_map.mp hl with ⟨c, hcmem, rfl⟩
    have hcont := hgood c hcmem
    unfold chunkContinues at hcont
    cases hb : env.getBatch c with
    | error e2 =>
      rw [hb] at hcont
      exact absurd hcont id
    | ok m =>
      rw [hb] at hcont
      have hi : chunkItems env c = (Service.processChunk env m c).1 := by
        simp [chunkItems, hb]
      rw [hi] at hxl
      exact processChunk_flag_ok env m c hcont x hxl

/-- Witness for C7 with a failing batch on a one-id index page. -/
theorem c7_batch_error_fatal_witness :
    (Service.chunkedCacheIterator cexBatchErrEnv ["x1"]).1
      = [.error ("failed to fetch cache batch: " ++ "redis timeout")]
    ∧ (Service.chunkedCacheIterator cexBatchErrEnv ["x1"]).2.getLast?
        = some (Ev.cacheGetBatch ["x1"]) := by
  have h := c7_batch_error_fatal cexBatchErrEnv ["x1"] [] [] ["x1"] "redis timeout"
    rfl (by simp) rfl
  exact ⟨by simpa using h.1, h.2.1⟩

end Favorites
